import Mathlib

/-!
Verification of the `module_stat` repository against its specification.

The Python code is shallowly embedded: Python `str` values become `List Char`
(so that the string operations the code uses — `split`, `strip`, `replace`,
substring tests, slicing — are ordinary structural recursions), Python `dict`
values become insertion-ordered association lists, fallible code returns
`Except PyErr`, and each embedded function is named after the source function
it translates (`module.__add_module` becomes `add_module`, and so on).
-/

set_option synthInstance.maxSize 4000

namespace ModuleStat

/-- Python strings, modelled as lists of characters. -/
abbrev PyStr := List Char

/-- The Python exceptions the embedded fragments can raise. -/
inductive PyErr where
  | valueError
  | indexError
  | nameError
  | keyError
  deriving DecidableEq, Repr

/-- Decidable equality for `Except`, so that concrete runs of the embedded
fallible functions can be settled by `decide`. -/
instance instDecEqExcept {ε α : Type} [DecidableEq ε] [DecidableEq α] :
    DecidableEq (Except ε α)
  | .ok x, .ok y =>
    match decEq x y with
    | isTrue h => isTrue (by rw [h])
    | isFalse h => isFalse (by intro hc; cases hc; exact h rfl)
  | .ok _, .error _ => isFalse (by intro hc; cases hc)
  | .error _, .ok _ => isFalse (by intro hc; cases hc)
  | .error e, .error f =>
    match decEq e f with
    | isTrue h => isTrue (by rw [h])
    | isFalse h => isFalse (by intro hc; cases hc; exact h rfl)

/-- Insertion-ordered association list, modelling a Python `dict`:
iteration order is insertion order, and assigning to an existing key
keeps its position. -/
abbrev Dict (α : Type) := List (PyStr × α)

/-- Python `d[k] = v`: overwrite in place if `k` is already a key,
otherwise append `(k, v)` at the end. -/
def dinsert (k : PyStr) (v : α) : Dict α → Dict α
  | [] => [(k, v)]
  | (k', v') :: rest => if k' = k then (k', v) :: rest else (k', v') :: dinsert k v rest

/-- Python `d.get(k)` / `k in d`: first (and, for dicts built by `dinsert`,
only) binding of `k`. -/
def dlookup (k : PyStr) : Dict α → Option α
  | [] => none
  | (k', v') :: rest => if k' = k then some v' else dlookup k rest

/-- The keys of a dict, in insertion order. -/
def dkeys (d : Dict α) : List PyStr := d.map Prod.fst

/-- Python `dict(d1, **d2)`: a copy of `d1` updated with the entries of `d2`
in their iteration order, entries of `d2` overwriting entries of `d1`. -/
def dmerge (d1 d2 : Dict α) : Dict α :=
  d2.foldl (fun acc kv => dinsert kv.1 kv.2 acc) d1

/-- Python `c in s` for a single character. -/
def pyContains (s : PyStr) (c : Char) : Bool :=
  s.any (fun d => d == c)

/-- Python `s.split(sep)` for a one-character separator: keeps empty pieces,
and splitting the empty string yields `[""]`. -/
def pySplitOnChar (sep : Char) : PyStr → List PyStr
  | [] => [[]]
  | c :: rest =>
    match pySplitOnChar sep rest with
    | [] => [[]]
    | h :: t => if c = sep then [] :: h :: t else (c :: h) :: t

/-- Python `pat in s`: contiguous-substring test. -/
def pySub (pat : PyStr) : PyStr → Bool
  | [] => pat.isEmpty
  | c :: rest => pat.isPrefixOf (c :: rest) || pySub pat rest

/-- Python `s.strip()` with no argument: remove leading and trailing
whitespace. -/
def pyStrip (s : PyStr) : PyStr :=
  ((s.dropWhile Char.isWhitespace).reverse.dropWhile Char.isWhitespace).reverse

/-- Python `s.rstrip('\r\n')`: remove trailing carriage returns and
newlines. -/
def pyRstripCrLf (s : PyStr) : PyStr :=
  (s.reverse.dropWhile (fun c => c == '\r' || c == '\n')).reverse

/-- Accumulator-passing worker for `pyWsSplit`; `acc` holds the characters of
the token currently being read, in reverse. -/
def pyWsSplitAux : PyStr → PyStr → List PyStr
  | [], acc => if acc.isEmpty then [] else [acc.reverse]
  | c :: rest, acc =>
    if c.isWhitespace then
      if acc.isEmpty then pyWsSplitAux rest [] else acc.reverse :: pyWsSplitAux rest []
    else
      pyWsSplitAux rest (c :: acc)

/-- Python `s.split()` with no argument: split on runs of whitespace,
discarding empty tokens. -/
def pyWsSplit (s : PyStr) : List PyStr :=
  pyWsSplitAux s []

/-- Fuel-driven worker for `pyReplace`; the fuel starts at the length of the
string and decreases by one per step, while each step consumes at least one
character for a nonempty pattern, so the fuel never runs out on the strings
it is started on. -/
def pyReplaceAux (pat rep : PyStr) : Nat → PyStr → PyStr
  | _, [] => []
  | 0, s => s
  | fuel + 1, c :: rest =>
    if pat ≠ [] ∧ pat.isPrefixOf (c :: rest) then
      rep ++ pyReplaceAux pat rep fuel ((c :: rest).drop pat.length)
    else
      c :: pyReplaceAux pat rep fuel rest

/-- Python `s.replace(pat, rep)` for a nonempty pattern: replace every
non-overlapping occurrence, scanning left to right.  (For an empty pattern
CPython instead inserts `rep` at every boundary; the program only ever
replaces the nonempty literal phrase.) -/
def pyReplace (pat rep : PyStr) (s : PyStr) : PyStr :=
  pyReplaceAux pat rep s.length s

/-- Numeric value of a list of decimal digits. -/
def digitsToNat (ds : List Char) : Nat :=
  ds.foldl (fun acc d => 10 * acc + (d.toNat - 48)) 0

/-- Python `int(s)`: strip whitespace, accept an optional sign followed by a
nonempty run of decimal digits, otherwise raise `ValueError`.  (CPython also
accepts underscore digit grouping and non-ASCII digits; nothing in this
program depends on those.) -/
def pyInt (s : PyStr) : Except PyErr Int :=
  match pyStrip s with
  | '-' :: ds =>
    if !ds.isEmpty && ds.all Char.isDigit then .ok (-(digitsToNat ds : Int))
    else .error .valueError
  | '+' :: ds =>
    if !ds.isEmpty && ds.all Char.isDigit then .ok (digitsToNat ds)
    else .error .valueError
  | ds =>
    if !ds.isEmpty && ds.all Char.isDigit then .ok (digitsToNat ds)
    else .error .valueError

/-! ## Embedding of `modules.py` (`class module`)

A `module` instance keeps a default toolchain of 2014, a dict `loaded` of
module name to optional version, a dict `called` of candidate tokens, and a
derived dict `used`.  The constructor stores the script as a list of
already-stripped non-comment lines and then runs `__find_toolchain` and
`__find_module_use`; the functions below act on that list of retained
lines. -/

/-- Source constant `skip_chars` in `modules.py`. -/
def skip_chars : List Char := ['-', '$', ';', '*', '"']

/-- Embedding of `module.__add_module`: strip the phrase `module load`, then
`key, val = mod.split("/")` when the remainder contains a slash (a tuple
unpacking that raises `ValueError` unless the split has exactly two pieces),
else record the whole remainder with a `None` version. -/
def add_module (loaded : Dict (Option PyStr)) (mod : PyStr) :
    Except PyErr (Dict (Option PyStr)) :=
  let m := pyStrip (pyReplace "module load".toList [] mod)
  if pyContains m '/' then
    match pySplitOnChar '/' m with
    | [k, v] => .ok (dinsert k (some v) loaded)
    | _ => .error .valueError
  else
    .ok (dinsert m none loaded)

/-- Per-token filter of `module.__check_calls` fused with
`module.__add_calls`: a token whose first character is in `skip_chars`, or
which contains `=`, is dropped; every surviving token is recorded into
`called` with a `None` value. -/
def call_step (acc : Dict (Option PyStr)) (w : PyStr) : Dict (Option PyStr) :=
  match w with
  | [] => acc
  | c :: _ =>
    if skip_chars.contains c || pyContains w '=' then acc
    else dinsert w none acc

/-- Embedding of `module.__check_calls` proper: split the line on
whitespace, ignore a line of exactly one token, and otherwise run
`call_step` over every token. -/
def check_calls (called : Dict (Option PyStr)) (line : PyStr) :
    Dict (Option PyStr) :=
  let words := pyWsSplit line
  if words.length == 1 then called
  else words.foldl call_step called

/-- Embedding of `module.__set_toolchain`.  The source computes
`check_1 = 'source switch_to_201' in toolchain`,
`check_2 = 'module use /apps/leuven' in toolchain` and then
`OK = all([check_1, check_2])`, returning without any assignment unless BOTH
substrings occur.  When both occur, `year` is assigned from the fixed slice
`[17:21]` and then reassigned from the fifth `/`-separated piece with its
last character dropped (either step can raise), and the second assignment is
the one that sticks. -/
def set_toolchain (tc : Int) (line : PyStr) : Except PyErr Int :=
  let t := pyStrip line
  let check_1 := pySub "source switch_to_201".toList t
  let check_2 := pySub "module use /apps/leuven".toList t
  if !(check_1 && check_2) then .ok tc
  else do
    let _y1 ← pyInt ((t.drop 17).take 4)
    let p ← match (pySplitOnChar '/' t).get? 4 with
            | some p => Except.ok p
            | none => Except.error PyErr.indexError
    let y2 ← pyInt p.dropLast
    .ok y2

/-- Loop body of `module.__find_toolchain`: lines containing either fixed
substring are `rstrip`ped of trailing CR/LF and passed to the toolchain
setter; other lines are skipped. -/
def find_toolchain_loop (tc : Int) : List PyStr → Except PyErr Int
  | [] => .ok tc
  | line :: rest =>
    if pySub "source switch_to_201".toList line then
      match set_toolchain tc (pyRstripCrLf line) with
      | .ok tc' => find_toolchain_loop tc' rest
      | .error e => .error e
    else if pySub "module use /apps/leuven/".toList line then
      match set_toolchain tc (pyRstripCrLf line) with
      | .ok tc' => find_toolchain_loop tc' rest
      | .error e => .error e
    else
      find_toolchain_loop tc rest

/-- Embedding of `module.__find_toolchain`, starting from the constructor
default `self.toolchain = 2014`. -/
def find_toolchain (lines : List PyStr) : Except PyErr Int :=
  find_toolchain_loop 2014 lines

/-- Loop of `module.__find_module_use` over the retained lines, threading the
`loaded` and `called` dicts. -/
def scan_lines :
    List PyStr → Dict (Option PyStr) × Dict (Option PyStr) →
    Except PyErr (Dict (Option PyStr) × Dict (Option PyStr))
  | [], st => .ok st
  | line :: rest, (loaded, called) =>
    if "module load".toList.isPrefixOf (pyStrip line) then
      match add_module loaded line with
      | .ok l => scan_lines rest (l, called)
      | .error e => .error e
    else
      scan_lines rest (loaded, check_calls called line)

/-- Embedding of `module.__find_module_use`: scan every retained line, then
derive `self.used = dict(self.loaded, **self.called)`.  Returns the triple
`(loaded, called, used)`. -/
def find_module_use (lines : List PyStr) :
    Except PyErr (Dict (Option PyStr) × Dict (Option PyStr) × Dict (Option PyStr)) :=
  match scan_lines lines ([], []) with
  | .ok (loaded, called) => .ok (loaded, called, dmerge loaded called)
  | .error e => .error e

/-! ## Embedding of `job_xml.py` (`class JB`)

`JB.__init__` sets every attribute to its default, runs `__allocate` (which
copies, for each XML element whose tag names a non-excluded instance
attribute, the element text onto that attribute, later elements overwriting
earlier ones), and finally runs `__set_ppn`.  The exclusion list is
`['file_xml', 'root', 'exclude', 'ppn']` — note that `machine` is NOT on it.
Only `nodes`, `ppn` and `machine` interact with the derived-attribute
computation, so the embedded state tracks those; the remaining tag-allocated
attributes are inert strings. -/

/-- The non-excluded instance-attribute names of `JB` at the time
`__allocate` runs: every attribute of the constructor except
`file_xml`, `root`, `exclude` and `ppn`. -/
def jb_attrs : List PyStr :=
  (["jobid", "queue", "Job_Name", "job_state", "Account_Name", "ctime",
    "mtime", "qtime", "etime", "Priority", "nodes", "nodect", "pmem",
    "walltime", "euser", "egroup", "submit_arg", "comp_time",
    "total_runtime", "machine"] : List String).map String.toList

/-- Embedding of `JB.as_dict`: fold the document-order sequence of
(tag, text) pairs into a dict, keeping only recognized tags, a repeated tag
overwriting its earlier value. -/
def as_dict (elems : List (PyStr × Option PyStr)) : Dict (Option PyStr) :=
  elems.foldl
    (fun d kv => if jb_attrs.contains kv.1 then dinsert kv.1 kv.2 d else d) []

/-- The fields of a `JB` instance that take part in the derived-attribute
computation. -/
structure JBState where
  nodes : Option PyStr
  ppn : Int
  machine : Option PyStr
  deriving DecidableEq, Repr

/-- One iteration of the loop in `get_ppn_and_machine` (the local helper of
`JB.__set_ppn`): an already-raised exception aborts the remaining
iterations; otherwise the part is tested against the literal `haswell`, the
literal misspelling `ivybrdige`, and the substring `ppn`, in that order,
with `int(p[4:])` able to raise `ValueError`. -/
def ppn_step (st : Except PyErr (Int × Option PyStr)) (p : PyStr) :
    Except PyErr (Int × Option PyStr) :=
  match st with
  | .error e => .error e
  | .ok (ppn, machine) =>
    let machine := if p = "haswell".toList then some "haswell".toList else machine
    let machine := if p = "ivybrdige".toList then some "ivybridge".toList else machine
    if pySub "ppn".toList p then
      match pyInt (p.drop 4) with
      | .ok n => .ok (n, machine)
      | .error e => .error e
    else
      .ok (ppn, machine)

/-- Embedding of the local helper `get_ppn_and_machine` of `JB.__set_ppn`,
with its defaults `ppn, machine = 1, None`. -/
def get_ppn_and_machine (parts : List PyStr) : Except PyErr (Int × Option PyStr) :=
  parts.foldl ppn_step (.ok (1, none))

/-- Embedding of `JB.__set_ppn`: absent `nodes`, or `nodes` without a `:`,
returns immediately (leaving `ppn` and `machine` as they are); otherwise the
string is split on `:`, a single piece resets the defaults, two or three
pieces are decoded by `get_ppn_and_machine`, and more than three pieces
raise `IndexError`. -/
def set_ppn (st : JBState) : Except PyErr JBState :=
  match st.nodes with
  | none => .ok st
  | some nodes =>
    if !(pyContains nodes ':') then .ok st
    else
      let parts := pySplitOnChar ':' nodes
      if parts.length = 1 then .ok { st with ppn := 1, machine := none }
      else if parts.length = 2 || parts.length = 3 then
        match get_ppn_and_machine parts with
        | .ok (p, m) => .ok { st with ppn := p, machine := m }
        | .error e => .error e
      else .error .indexError

/-- Embedding of the `JB` constructor restricted to the fields that interact
with the derived attributes: defaults (`ppn = 1`, `machine = None`,
`nodes = None`), then `__allocate` from the record (which can set `nodes`
and — `machine` not being excluded — also `machine`, but never `ppn`), then
`__set_ppn`. -/
def loadJB (elems : List (PyStr × Option PyStr)) : Except PyErr JBState :=
  let d := as_dict elems
  set_ppn
    { nodes := (dlookup "nodes".toList d).join
      ppn := 1
      machine := (dlookup "machine".toList d).join }

/-- Derived-field decoding of a present node-spec string, as performed by
`__set_ppn` on a freshly defaulted instance. -/
def decode_nodes (nodes : PyStr) : Except PyErr (Int × Option PyStr) :=
  (set_ppn { nodes := some nodes, ppn := 1, machine := none }).map
    fun s => (s.ppn, s.machine)

/-! ## Embedding of `stats.py` (`class stats`)

The counters and the executable map of a `stats` instance. -/

/-- The mutable counter/index state of a `stats` instance. -/
structure StatsState where
  module_counter : Dict Int
  version_counter : Dict Int
  executables : Dict PyStr
  deriving DecidableEq, Repr

/-- Embedding of `stats.increment_module_count`: if `which` is a key of the
module counter it is the module; otherwise, if it is a key of the executable
map, the mapped module name is used; otherwise the call is a logged no-op.
The final `self.module_counter[module] += 1` raises `KeyError` if the
resolved module is not a counter key. -/
def increment_module_count (st : StatsState) (which : PyStr) :
    Except PyErr StatsState :=
  match dlookup which st.module_counter with
  | some v =>
    .ok { st with module_counter := dinsert which (v + 1) st.module_counter }
  | none =>
    match dlookup which st.executables with
    | some m =>
      match dlookup m st.module_counter with
      | some v =>
        .ok { st with module_counter := dinsert m (v + 1) st.module_counter }
      | none => .error .keyError
    | none => .ok st

/-- Embedding of `stats.increment_version_count`.  With `version = None` the
key is `'{toolchain}/{module}'` and an unknown key is a logged no-op.  With a
non-`None` version the source builds the key from the misspelled, unbound
name `verison`, so CPython raises `NameError` before any counter is read or
written. -/
def increment_version_count (st : StatsState) (toolchain : Int)
    (moduleName : PyStr) (version : Option PyStr) : Except PyErr StatsState :=
  match version with
  | none =>
    let key := (toString toolchain).toList ++ '/' :: moduleName
    match dlookup key st.version_counter with
    | some v =>
      .ok { st with version_counter := dinsert key (v + 1) st.version_counter }
    | none => .ok st
  | some _ => .error .nameError

/-- Embedding of `stats.write_dic_executables`, which writes the line
`'{key} {val}\n'` for every entry of the executable map; the persisted file
is represented by its list of lines. -/
def write_dic_executables (executables : Dict PyStr) : List PyStr :=
  executables.map fun kv => kv.1 ++ ' ' :: kv.2 ++ ['\n']

/-- Loop of `stats.read_dic_executables` over the lines of the file:
`key, val = line.rstrip('\r\n').split()` raises `ValueError` unless the
split yields exactly two tokens, and `dic[key] = val` records the pair. -/
def read_lines_loop : List PyStr → Dict PyStr → Except PyErr (Dict PyStr)
  | [], d => .ok d
  | line :: rest, d =>
    match pyWsSplit (pyRstripCrLf line) with
    | [k, v] => read_lines_loop rest (dinsert k v d)
    | _ => .error .valueError

/-- Embedding of `stats.read_dic_executables` on the list of lines of an
existing file. -/
def read_dic_executables (lines : List PyStr) : Except PyErr (Dict PyStr) :=
  read_lines_loop lines []

/-! ## Dictionary lemmas -/

theorem dkeys_nil : dkeys ([] : Dict α) = [] := rfl

theorem dkeys_cons (a : PyStr) (b : α) (rest : Dict α) :
    dkeys ((a, b) :: rest) = a :: dkeys rest := rfl

theorem dlookup_dinsert_self (d : Dict α) (k : PyStr) (v : α) :
    dlookup k (dinsert k v d) = some v := by
  induction d with
  | nil => simp [dinsert, dlookup]
  | cons kv rest ih =>
    obtain ⟨k', v'⟩ := kv
    by_cases h : k' = k
    · simp [dinsert, dlookup, h]
    · simp [dinsert, dlookup, h, ih]

theorem dlookup_dinsert_ne (d : Dict α) (k k' : PyStr) (v : α) (h : k' ≠ k) :
    dlookup k (dinsert k' v d) = dlookup k d := by
  induction d with
  | nil => simp [dinsert, dlookup, h]
  | cons kv rest ih =>
    obtain ⟨a, b⟩ := kv
    by_cases ha : a = k'
    · subst ha
      simp [dinsert, dlookup, h]
    · simp [dinsert, dlookup, ha, ih]

theorem dlookup_eq_none_iff (d : Dict α) (k : PyStr) :
    dlookup k d = none ↔ k ∉ dkeys d := by
  induction d with
  | nil => simp [dlookup, dkeys_nil]
  | cons kv rest ih =>
    obtain ⟨a, b⟩ := kv
    by_cases ha : a = k
    · subst ha
      simp [dlookup, dkeys_cons]
    · rw [dkeys_cons]
      simp only [dlookup, ha, if_false, List.mem_cons]
      constructor
      · intro hn hor
        rcases hor with hk | hm
        · exact ha hk.symm
        · exact (ih.1 hn) hm
      · intro hn
        exact ih.2 fun hm => hn (Or.inr hm)

theorem dkeys_dinsert_mem (d : Dict α) (k : PyStr) (v : α) (h : k ∈ dkeys d) :
    dkeys (dinsert k v d) = dkeys d := by
  induction d with
  | nil => simp [dkeys_nil] at h
  | cons kv rest ih =>
    obtain ⟨a, b⟩ := kv
    by_cases ha : a = k
    · simp [dinsert, dkeys_cons, ha]
    · have hm : k ∈ dkeys rest := by
        rw [dkeys_cons] at h
        rcases List.mem_cons.1 h with hk | hm
        · exact absurd hk.symm ha
        · exact hm
      simp [dinsert, dkeys_cons, ha, ih hm]

theorem dkeys_dinsert_not_mem (d : Dict α) (k : PyStr) (v : α)
    (h : k ∉ dkeys d) : dkeys (dinsert k v d) = dkeys d ++ [k] := by
  induction d with
  | nil => simp [dinsert, dkeys_nil, dkeys_cons]
  | cons kv rest ih =>
    obtain ⟨a, b⟩ := kv
    rw [dkeys_cons] at h
    have ha : a ≠ k := fun hak => h (by simp [hak])
    have hrest : k ∉ dkeys rest := fun hm => h (by simp [hm])
    simp [dinsert, dkeys_cons, ha, ih hrest]

theorem nodup_dkeys_dinsert (d : Dict α) (k : PyStr) (v : α)
    (h : (dkeys d).Nodup) : (dkeys (dinsert k v d)).Nodup := by
  by_cases hm : k ∈ dkeys d
  · rw [dkeys_dinsert_mem d k v hm]
    exact h
  · rw [dkeys_dinsert_not_mem d k v hm]
    simp [List.nodup_append, h, hm]

theorem dlookup_dmerge (d1 d2 : Dict α) (k : PyStr)
    (h : (dkeys d2).Nodup) :
    dlookup k (dmerge d1 d2) = (dlookup k d2).or (dlookup k d1) := by
  induction d2 generalizing d1 with
  | nil => simp [dmerge, dlookup]
  | cons kv rest ih =>
    obtain ⟨k2, v2⟩ := kv
    rw [dkeys_cons] at h
    have hk2 : k2 ∉ dkeys rest := (List.nodup_cons.1 h).1
    have hrest : (dkeys rest).Nodup := (List.nodup_cons.1 h).2
    have hstep : dmerge d1 ((k2, v2) :: rest) = dmerge (dinsert k2 v2 d1) rest := rfl
    rw [hstep, ih (dinsert k2 v2 d1) hrest]
    by_cases hkk : k2 = k
    · subst hkk
      have hnone : dlookup k2 rest = none := (dlookup_eq_none_iff rest k2).2 hk2
      simp [dlookup, hnone, dlookup_dinsert_self]
    · simp [dlookup, hkk, dlookup_dinsert_ne d1 k k2 v2 hkk]

/-! ## Key-uniqueness invariants of the script scan -/

theorem add_module_nodup (loaded : Dict (Option PyStr)) (mod : PyStr)
    (d : Dict (Option PyStr)) (h : (dkeys loaded).Nodup)
    (hres : add_module loaded mod = .ok d) : (dkeys d).Nodup := by
  simp only [add_module] at hres
  split at hres
  · split at hres
    · cases hres
      exact nodup_dkeys_dinsert _ _ _ h
    · cases hres
  · cases hres
    exact nodup_dkeys_dinsert _ _ _ h

theorem call_foldl_nodup (ws : List PyStr) (acc : Dict (Option PyStr))
    (h : (dkeys acc).Nodup) : (dkeys (ws.foldl call_step acc)).Nodup := by
  induction ws generalizing acc with
  | nil => simpa using h
  | cons w rest ih =>
    rw [List.foldl_cons]
    apply ih
    unfold call_step
    split
    · exact h
    · split
      · exact h
      · exact nodup_dkeys_dinsert _ _ _ h

theorem check_calls_nodup (called : Dict (Option PyStr)) (line : PyStr)
    (h : (dkeys called).Nodup) : (dkeys (check_calls called line)).Nodup := by
  simp only [check_calls]
  split
  · exact h
  · exact call_foldl_nodup _ _ h

theorem scan_lines_nodup (lines : List PyStr)
    (loaded called l c : Dict (Option PyStr))
    (h1 : (dkeys loaded).Nodup) (h2 : (dkeys called).Nodup)
    (hres : scan_lines lines (loaded, called) = .ok (l, c)) :
    (dkeys l).Nodup ∧ (dkeys c).Nodup := by
  induction lines generalizing loaded called with
  | nil =>
    simp only [scan_lines] at hres
    cases hres
    exact ⟨h1, h2⟩
  | cons line rest ih =>
    simp only [scan_lines] at hres
    split at hres
    · split at hres
      · rename_i l' heq
        exact ih l' called (add_module_nodup loaded line l' h1 heq) h2 hres
      · cases hres
    · exact ih loaded (check_calls called line) h1 (check_calls_nodup called line h2) hres

/-! ## Claim C1 -/

/-- C1 counterexample.  For the script
`["module load Python/2.7", "Python run.py"]` the key `Python` appears both
in loaded-modules (with value `2.7`) and in called-candidates (with the null
placeholder), and the derived `used` view carries the null placeholder — not
the loaded-modules value — because `dict(self.loaded, **self.called)` lets
the keyword arguments overwrite.  This refutes the claimed loaded-precedence
property at a concrete input. -/
theorem c1_counterexample :
    find_module_use ["module load Python/2.7".toList, "Python run.py".toList] =
      .ok ([("Python".toList, some "2.7".toList)],
           [("Python".toList, none), ("run.py".toList, none)],
           [("Python".toList, none), ("run.py".toList, none)]) ∧
    (∃ u, dlookup "Python".toList
        ([("Python".toList, (none : Option PyStr)), ("run.py".toList, none)]) = some u ∧
      u ≠ some "2.7".toList) ∧
    dlookup "Python".toList [("Python".toList, some "2.7".toList)] =
      some (some "2.7".toList) := by
  refine ⟨by decide, ⟨none, by decide, by decide⟩, by decide⟩

/-- C1 (amended): for every analyzed script, the derived `used` view is the
union of the loaded-modules and called-candidates mappings, but on every key
that appears in both it is the called-candidates value (the null
placeholder) that wins, since `dict(self.loaded, **self.called)` lets the
keyword dict overwrite the positional one. -/
theorem c1_used_is_union_called_precedence (lines : List PyStr)
    (loaded called used : Dict (Option PyStr))
    (h : find_module_use lines = .ok (loaded, called, used)) (k : PyStr) :
    dlookup k used = (dlookup k called).or (dlookup k loaded) := by
  simp only [find_module_use] at h
  split at h
  · rename_i a b heq
    rw [Except.ok.injEq, Prod.mk.injEq, Prod.mk.injEq] at h
    obtain ⟨h1, h2, h3⟩ := h
    have hnodup := scan_lines_nodup lines [] [] a b
      (by simp [dkeys_nil]) (by simp [dkeys_nil]) heq
    rw [← h3, ← h1, ← h2]
    exact dlookup_dmerge a b k hnodup.2
  · cases h

/-- Witness for C1: the amended union/precedence law applied to the concrete
two-line script of the counterexample, at the shared key `Python`. -/
theorem c1_witness :
    dlookup "Python".toList
        ([("Python".toList, (none : Option PyStr)), ("run.py".toList, none)]) =
      (dlookup "Python".toList
          ([("Python".toList, (none : Option PyStr)), ("run.py".toList, none)])).or
        (dlookup "Python".toList [("Python".toList, some "2.7".toList)]) :=
  c1_used_is_union_called_precedence
    ["module load Python/2.7".toList, "Python run.py".toList]
    [("Python".toList, some "2.7".toList)]
    [("Python".toList, none), ("run.py".toList, none)]
    [("Python".toList, none), ("run.py".toList, none)]
    (by decide) "Python".toList

/-! ## Lemmas about splitting -/

theorem pySplitOnChar_ne_nil (sep : Char) (s : PyStr) :
    pySplitOnChar sep s ≠ [] := by
  induction s with
  | nil => simp [pySplitOnChar]
  | cons c rest ih =>
    simp only [pySplitOnChar]
    split
    · simp
    · split <;> simp

theorem pySplitOnChar_of_not_contains (sep : Char) (s : PyStr)
    (h : pyContains s sep = false) : pySplitOnChar sep s = [s] := by
  induction s with
  | nil => rfl
  | cons c rest ih =>
    simp only [pyContains, List.any_cons, Bool.or_eq_false_iff, beq_eq_false_iff_ne,
      ne_eq] at h
    obtain ⟨hc, hrest⟩ := h
    have hrest' : pyContains rest sep = false := by
      simp [pyContains, hrest]
    rw [pySplitOnChar, ih hrest']
    simp [hc]

theorem two_le_length_pySplitOnChar (sep : Char) (s : PyStr)
    (h : pyContains s sep = true) : 2 ≤ (pySplitOnChar sep s).length := by
  induction s with
  | nil => simp [pyContains] at h
  | cons c rest ih =>
    by_cases hc : c = sep
    · subst hc
      rw [pySplitOnChar]
      cases hrec : pySplitOnChar c rest with
      | nil => exact absurd hrec (pySplitOnChar_ne_nil c rest)
      | cons x t => simp
    · have hrest : pyContains rest sep = true := by
        simpa [pyContains, List.any_cons, hc] using h
      rw [pySplitOnChar]
      cases hrec : pySplitOnChar sep rest with
      | nil => exact absurd hrec (pySplitOnChar_ne_nil sep rest)
      | cons x t =>
        have h2 := ih hrest
        rw [hrec] at h2
        simp only [List.length_cons] at h2
        simp [hc]
        omega

/-! ## Claim C2 -/

/-- C2.  The claim says a retained line sets the toolchain epoch if it
contains EITHER fixed substring, and that only a line matching neither is
rejected by the epoch setter.  The code computes
`OK = all([check_1, check_2])`, so the setter rejects every line that does
not contain BOTH substrings: the documented example
`source switch_to_2015a` (which contains the switch-to-year phrase) is
dispatched to the setter and rejected as a no-op, leaving the default 2014,
and so is a pure `module use /apps/leuven/...` line; only a line containing
both substrings actually sets the epoch (to the `module use` year, the
second assignment winning). -/
theorem c2_set_toolchain_requires_both_substrings :
    pySub "source switch_to_201".toList "source switch_to_2015a".toList = true ∧
    set_toolchain 2014 "source switch_to_2015a".toList = .ok 2014 ∧
    find_toolchain ["source switch_to_2015a".toList] = .ok 2014 ∧
    find_toolchain ["module use /apps/leuven/thinking/2015a".toList] = .ok 2014 ∧
    find_toolchain
        ["source switch_to_2015a; module use /apps/leuven/thinking/2016a".toList] =
      .ok 2016 :=
  ⟨by decide, by decide, by decide, by decide, by decide⟩

/-! ## Claim C3 -/

/-- C3 counterexample.  A module-load line whose argument has two `/`
separators is not "recorded without error": the tuple unpacking
`key, val = mod.split("/")` gets three pieces and raises `ValueError`, so
the whole scan of the script fails. -/
theorem c3_counterexample :
    find_module_use ["module load a/b/c".toList] = .error .valueError := by
  decide

/-- C3 (amended): the analyzer strips the `module load` phrase and splits
the remainder on every `/` (not into at most 2 pieces): with no slash it
records (name, null), with exactly one slash it records (name, version),
overwriting any prior entry for that name — in particular the two-line
Python example ends with `Python ↦ 2.7` — and with two or more slashes the
tuple unpacking raises `ValueError` instead of recording anything. -/
theorem c3_add_module_characterization :
    (∀ (loaded : Dict (Option PyStr)) (mod : PyStr),
      add_module loaded mod =
        match pySplitOnChar '/' (pyStrip (pyReplace "module load".toList [] mod)) with
        | [k] => .ok (dinsert k none loaded)
        | [k, v] => .ok (dinsert k (some v) loaded)
        | _ => .error .valueError) ∧
    find_module_use
        ["module load Python/3.6.1".toList, "module load Python/2.7".toList] =
      .ok ([("Python".toList, some "2.7".toList)], [],
           [("Python".toList, some "2.7".toList)]) := by
  constructor
  · intro loaded mod
    simp only [add_module]
    cases hm : pyContains (pyStrip (pyReplace "module load".toList [] mod)) '/' with
    | false =>
      rw [pySplitOnChar_of_not_contains '/' _ hm]
      simp
    | true =>
      have h2 := two_le_length_pySplitOnChar '/' _ hm
      cases hsplit : pySplitOnChar '/' (pyStrip (pyReplace "module load".toList [] mod)) with
      | nil => exact absurd hsplit (pySplitOnChar_ne_nil '/' _)
      | cons k t =>
        rw [hsplit] at h2
        cases t with
        | nil => simp at h2
        | cons v t2 =>
          cases t2 with
          | nil => simp
          | cons w t3 => simp
  · decide

/-! ## Claim C5 -/

/-- C5.  On the documented example line the candidate-command scan does not
record exactly the keys `monitor`, `runtime.log`, `matlab` as the claim (and
the source docstring) promises: splitting on whitespace breaks the
double-quoted argument into pieces, only the piece starting with the quote
character is dropped, and the fragments `1`, `2` and the token consisting of
`3` followed by a quote are also admitted as candidate keys. -/
theorem c5_check_calls_admits_quote_fragments :
    check_calls []
        "monitor -l runtime.log -- matlab -nodisplay -nojvm -r \"MyExec 1 2 3\"".toList =
      [("monitor".toList, none), ("runtime.log".toList, none),
       ("matlab".toList, none), ("1".toList, none), ("2".toList, none),
       ("3\"".toList, none)] ∧
    dlookup "1".toList
        (check_calls []
          "monitor -l runtime.log -- matlab -nodisplay -nojvm -r \"MyExec 1 2 3\"".toList) =
      some none :=
  ⟨by decide, by decide⟩

/-! ## Claim C4 -/

/-- C4 counterexample.  Two records with identical (absent) node-spec tags
yield different hardware-class values: a record carrying a `machine` tag
keeps that tag's text, because `machine` is missing from the `__init__`
exclusion list and `__set_ppn` returns early when `nodes` is `None`.  So the
hardware-class derived field is not recomputed from the node-spec string
alone and can be hand-set through the loader. -/
theorem c4_counterexample :
    dlookup "nodes".toList (as_dict [("machine".toList, some "haswell".toList)]) =
      dlookup "nodes".toList (as_dict []) ∧
    (loadJB [("machine".toList, some "haswell".toList)]).map JBState.machine =
      .ok (some "haswell".toList) ∧
    (loadJB []).map JBState.machine = .ok none :=
  ⟨by decide, by decide, by decide⟩

/-- Auxiliary for C4: on states differing only in the `machine` field, the
node-spec decode produces the same `ppn` outcome always, and the same
`machine` outcome whenever the node-spec is present and contains `:`. -/
theorem set_ppn_machine_indep (N : Option PyStr) (m1 m2 : Option PyStr) :
    ((set_ppn ⟨N, 1, m1⟩).map JBState.ppn = (set_ppn ⟨N, 1, m2⟩).map JBState.ppn) ∧
    (∀ n, N = some n → pyContains n ':' = true →
      (set_ppn ⟨N, 1, m1⟩).map JBState.machine =
        (set_ppn ⟨N, 1, m2⟩).map JBState.machine) := by
  cases N with
  | none => exact ⟨rfl, fun n hn => by cases hn⟩
  | some nodes =>
    cases hc : pyContains nodes ':' with
    | false =>
      constructor
      · simp only [set_ppn, hc, Bool.not_false, if_true, Except.map]
      · intro n hn hcn
        rw [Option.some.injEq] at hn
        subst hn
        rw [hc] at hcn
        cases hcn
    | true =>
      have hbody :
          ∀ m : Option PyStr, set_ppn ⟨some nodes, 1, m⟩ =
            (let parts := pySplitOnChar ':' nodes
             if parts.length = 1 then .ok ⟨some nodes, 1, none⟩
             else if parts.length = 2 || parts.length = 3 then
               match get_ppn_and_machine parts with
               | .ok (p, mm) => .ok ⟨some nodes, p, mm⟩
               | .error e => .error e
             else .error .indexError) := by
        intro m
        simp only [set_ppn, hc, Bool.not_true, Bool.false_eq_true, if_false]
      constructor
      · rw [hbody m1, hbody m2]
      · intro n hn hcn
        rw [hbody m1, hbody m2]

/-- C4 (amended): the cores-per-node derived field is never set from a tag —
`ppn` is on the loader's exclusion list and is recomputed from the raw
node-spec lookup alone — and the hardware-class field is likewise recomputed
from the node-spec whenever a node-spec value is present and contains the
`:` separator; only a record whose node-spec is absent or separator-free can
retain a hand-set `machine` tag (as the counterexample shows). -/
theorem c4_derived_from_nodes (e1 e2 : List (PyStr × Option PyStr))
    (hnodes : (dlookup "nodes".toList (as_dict e1)).join =
              (dlookup "nodes".toList (as_dict e2)).join) :
    ((loadJB e1).map JBState.ppn = (loadJB e2).map JBState.ppn) ∧
    (∀ n, (dlookup "nodes".toList (as_dict e1)).join = some n →
      pyContains n ':' = true →
      (loadJB e1).map JBState.machine = (loadJB e2).map JBState.machine) := by
  have h1 : loadJB e1 = set_ppn ⟨(dlookup "nodes".toList (as_dict e1)).join, 1,
      (dlookup "machine".toList (as_dict e1)).join⟩ := rfl
  have h2 : loadJB e2 = set_ppn ⟨(dlookup "nodes".toList (as_dict e2)).join, 1,
      (dlookup "machine".toList (as_dict e2)).join⟩ := rfl
  rw [h1, h2, ← hnodes]
  constructor
  · exact (set_ppn_machine_indep _ _ _).1
  · intro n hn hcn
    exact (set_ppn_machine_indep _ _ _).2 n hn hcn

/-- Witness for C4: two records with the same node-spec `ppn=8:haswell` but
different `machine` tags decode to the same derived fields. -/
theorem c4_witness :
    ((loadJB [("nodes".toList, some "ppn=8:haswell".toList),
              ("machine".toList, some "bogus".toList)]).map JBState.ppn =
      (loadJB [("nodes".toList, some "ppn=8:haswell".toList)]).map JBState.ppn) ∧
    ((loadJB [("nodes".toList, some "ppn=8:haswell".toList),
              ("machine".toList, some "bogus".toList)]).map JBState.machine =
      (loadJB [("nodes".toList, some "ppn=8:haswell".toList)]).map JBState.machine) :=
  ⟨(c4_derived_from_nodes _ _ (by decide)).1,
   (c4_derived_from_nodes _ _ (by decide)).2 "ppn=8:haswell".toList
     (by decide) (by decide)⟩

/-! ## Claim C6 -/

theorem pyInt_ne_indexError (s : PyStr) : pyInt s ≠ .error .indexError := by
  unfold pyInt
  split <;> split <;> simp

theorem get_ppn_and_machine_ne_indexError (parts : List PyStr) :
    get_ppn_and_machine parts ≠ .error .indexError := by
  suffices h : ∀ st : Except PyErr (Int × Option PyStr),
      st ≠ .error .indexError → parts.foldl ppn_step st ≠ .error .indexError by
    exact h _ (by simp)
  induction parts with
  | nil =>
    intro st hst
    simpa using hst
  | cons p rest ih =>
    intro st hst
    rw [List.foldl_cons]
    apply ih
    cases st with
    | error e => simpa [ppn_step] using hst
    | ok pr =>
      obtain ⟨pp, mm⟩ := pr
      simp only [ppn_step]
      split
      · split
        · simp
        · rename_i e heq
          intro hcontra
          rw [Except.error.injEq] at hcontra
          subst hcontra
          exact pyInt_ne_indexError _ heq
      · simp

/-- C6: a node-spec string splitting on `:` into more than 3 parts makes
`__set_ppn` raise `IndexError` (the embedding of the MalformedSpec error),
fatal only to that job's derived-attribute computation; with at most 3 parts
the part-count check never produces that error (the only other failure mode
is a `ValueError` from parsing a `ppn` field). -/
theorem c6_part_count (st : JBState) (nodes : PyStr) (h : st.nodes = some nodes) :
    (3 < (pySplitOnChar ':' nodes).length → set_ppn st = .error .indexError) ∧
    ((pySplitOnChar ':' nodes).length ≤ 3 → set_ppn st ≠ .error .indexError) := by
  constructor
  · intro hlen
    have hcontains : pyContains nodes ':' = true := by
      cases hcq : pyContains nodes ':' with
      | true => rfl
      | false =>
        rw [pySplitOnChar_of_not_contains ':' nodes hcq] at hlen
        simp at hlen
    have h1 : ¬ (pySplitOnChar ':' nodes).length = 1 := by omega
    have h2 : ¬ (pySplitOnChar ':' nodes).length = 2 := by omega
    have h3 : ¬ (pySplitOnChar ':' nodes).length = 3 := by omega
    simp [set_ppn, h, hcontains, h1, h2, h3]
  · intro hlen hcontra
    simp only [set_ppn, h] at hcontra
    split at hcontra
    · cases hcontra
    · split at hcontra
      · cases hcontra
      · split at hcontra
        · split at hcontra
          · cases hcontra
          · rename_i e heq
            rw [Except.error.injEq] at hcontra
            subst hcontra
            exact get_ppn_and_machine_ne_indexError _ heq
        · rename_i hne1 hne23
          have hnn := pySplitOnChar_ne_nil ':' nodes
          have hpos : 1 ≤ (pySplitOnChar ':' nodes).length := by
            cases hsp : pySplitOnChar ':' nodes with
            | nil => exact absurd hsp hnn
            | cons a t => simp
          simp only [Bool.or_eq_true, decide_eq_true_eq] at hne23
          omega

/-- Witness for C6: a four-field node-spec raises the index error, a
two-field node-spec does not. -/
theorem c6_witness :
    set_ppn ⟨some "a:b:c:d".toList, 1, none⟩ = .error .indexError ∧
    set_ppn ⟨some "ppn=8:haswell".toList, 1, none⟩ ≠ .error .indexError :=
  ⟨(c6_part_count ⟨some "a:b:c:d".toList, 1, none⟩ "a:b:c:d".toList rfl).1
      (by decide),
   (c6_part_count ⟨some "ppn=8:haswell".toList, 1, none⟩ "ppn=8:haswell".toList
      rfl).2 (by decide)⟩

/-! ## Claim C7 -/

/-- Net effect of one loop iteration of `get_ppn_and_machine` on the
`machine` component. -/
def machine_update (w : PyStr) (m : Option PyStr) : Option PyStr :=
  if w = "ivybrdige".toList then some "ivybridge".toList
  else if w = "haswell".toList then some "haswell".toList
  else m

theorem ppn_step_error (e : PyErr) (w : PyStr) :
    ppn_step (.error e) w = .error e := rfl

theorem machine_update_skip (w : PyStr) (t : Option PyStr)
    (h1 : ¬ w = "haswell".toList) (h2 : ¬ w = "ivybrdige".toList) :
    machine_update w t = t := by
  unfold machine_update
  rw [if_neg h2, if_neg h1]

theorem ppn_step_ok_eq (pp : Int) (m : Option PyStr) (w : PyStr) :
    ppn_step (.ok (pp, m)) w =
      (if pySub "ppn".toList w then
        match pyInt (w.drop 4) with
        | .ok n => .ok (n, machine_update w m)
        | .error e => .error e
      else .ok (pp, machine_update w m)) := by
  by_cases hi : w = "ivybrdige".toList
  · subst hi
    have hh : ¬ ("ivybrdige".toList = "haswell".toList) := by decide
    simp [ppn_step, machine_update, hh]
  · by_cases hh : w = "haswell".toList
    · subst hh
      simp [ppn_step, machine_update, hi]
    · simp [ppn_step, machine_update, hi, hh]

theorem ppn_step_comm (x y : PyStr) (z : Except PyErr (Int × Option PyStr))
    (hpp : pySub "ppn".toList x = true → pySub "ppn".toList y = true → x = y)
    (hmm : (x = "haswell".toList ∨ x = "ivybrdige".toList) →
           (y = "haswell".toList ∨ y = "ivybrdige".toList) → x = y) :
    ppn_step (ppn_step z x) y = ppn_step (ppn_step z y) x := by
  by_cases hxy : x = y
  · rw [hxy]
  cases z with
  | error e => rfl
  | ok pr =>
    obtain ⟨pp, m⟩ := pr
    have hcomm : ∀ mm : Option PyStr,
        machine_update y (machine_update x mm) =
          machine_update x (machine_update y mm) := by
      intro mm
      by_cases hx : x = "haswell".toList ∨ x = "ivybrdige".toList
      · by_cases hy : y = "haswell".toList ∨ y = "ivybrdige".toList
        · exact absurd (hmm hx hy) hxy
        · push_neg at hy
          rw [machine_update_skip y (machine_update x mm) hy.1 hy.2,
            machine_update_skip y mm hy.1 hy.2]
      · push_neg at hx
        rw [machine_update_skip x mm hx.1 hx.2,
          machine_update_skip x (machine_update y mm) hx.1 hx.2]
    cases hpx : pySub "ppn".toList x with
    | false =>
      cases hpy : pySub "ppn".toList y with
      | false =>
        simp only [ppn_step_ok_eq, hpx, hpy, Bool.false_eq_true, if_false,
          hcomm]
      | true =>
        have hy1 : y ≠ "haswell".toList := by
          intro hh; rw [hh] at hpy; exact absurd hpy (by decide)
        have hy2 : y ≠ "ivybrdige".toList := by
          intro hh; rw [hh] at hpy; exact absurd hpy (by decide)
        have hmuy : ∀ t, machine_update y t = t := fun t =>
          machine_update_skip y t hy1 hy2
        cases hint : pyInt (y.drop 4) with
        | ok n =>
          simp only [ppn_step_ok_eq, hpx, hpy, Bool.false_eq_true, if_false,
            if_true, hint, hmuy, hcomm]
        | error e =>
          simp only [ppn_step_ok_eq, hpx, hpy, Bool.false_eq_true, if_false,
            if_true, hint, ppn_step_error]
    | true =>
      cases hpy : pySub "ppn".toList y with
      | false =>
        have hx1 : x ≠ "haswell".toList := by
          intro hh; rw [hh] at hpx; exact absurd hpx (by decide)
        have hx2 : x ≠ "ivybrdige".toList := by
          intro hh; rw [hh] at hpx; exact absurd hpx (by decide)
        have hmux : ∀ t, machine_update x t = t := fun t =>
          machine_update_skip x t hx1 hx2
        cases hint : pyInt (x.drop 4) with
        | ok n =>
          simp only [ppn_step_ok_eq, hpx, hpy, Bool.false_eq_true, if_false,
            if_true, hint, hmux, hcomm]
        | error e =>
          simp only [ppn_step_ok_eq, hpx, hpy, Bool.false_eq_true, if_false,
            if_true, hint, ppn_step_error]
      | true => exact absurd (hpp hpx hpy) hxy

theorem contains_of_two_le_split (sep : Char) (s : PyStr)
    (h : 2 ≤ (pySplitOnChar sep s).length) : pyContains s sep = true := by
  cases hc : pyContains s sep with
  | true => rfl
  | false =>
    rw [pySplitOnChar_of_not_contains sep s hc] at h
    simp at h

/-- C7 counterexample.  The two-field node-specs `haswell:ivybrdige` and
`ivybrdige:haswell` are permutations of each other, yet they decode to
different hardware classes, because each matching field overwrites the
`machine` value in loop order.  So decoding is not order-independent for
every 2-or-3-field node-spec. -/
theorem c7_counterexample :
    (pySplitOnChar ':' "haswell:ivybrdige".toList).Perm
      (pySplitOnChar ':' "ivybrdige:haswell".toList) ∧
    (pySplitOnChar ':' "haswell:ivybrdige".toList).length = 2 ∧
    decode_nodes "haswell:ivybrdige".toList ≠
      decode_nodes "ivybrdige:haswell".toList :=
  ⟨by decide, by decide, by decide⟩

/-- C7 (amended): decoding a node-spec with exactly 2 or 3 colon-delimited
fields is order-independent — permuting the fields yields the identical
(cores-per-node, hardware-class) outcome, raised-or-not included — provided
no two distinct fields both contain the `ppn` substring and no two distinct
fields are both hardware tags (`haswell` / the misspelt `ivybrdige`); the
counterexample shows the proviso is necessary. -/
theorem c7_order_independent (n1 n2 : PyStr)
    (hperm : (pySplitOnChar ':' n1).Perm (pySplitOnChar ':' n2))
    (hlen : (pySplitOnChar ':' n1).length = 2 ∨
            (pySplitOnChar ':' n1).length = 3)
    (hpp : ∀ x ∈ pySplitOnChar ':' n1, ∀ y ∈ pySplitOnChar ':' n1,
      pySub "ppn".toList x = true → pySub "ppn".toList y = true → x = y)
    (hmm : ∀ x ∈ pySplitOnChar ':' n1, ∀ y ∈ pySplitOnChar ':' n1,
      (x = "haswell".toList ∨ x = "ivybrdige".toList) →
      (y = "haswell".toList ∨ y = "ivybrdige".toList) → x = y) :
    decode_nodes n1 = decode_nodes n2 := by
  have hg : get_ppn_and_machine (pySplitOnChar ':' n1) =
      get_ppn_and_machine (pySplitOnChar ':' n2) :=
    List.Perm.foldl_eq' hperm
      (fun x hx y hy z => ppn_step_comm x y z (hpp x hx y hy) (hmm x hx y hy)) _
  have hlen12 := hperm.length_eq
  have hc1 : pyContains n1 ':' = true :=
    contains_of_two_le_split ':' n1 (by omega)
  have hc2 : pyContains n2 ':' = true :=
    contains_of_two_le_split ':' n2 (by omega)
  rcases hlen with h2 | h3
  · have h2' : (pySplitOnChar ':' n2).length = 2 := by omega
    simp only [decode_nodes, set_ppn, hc1, hc2, Bool.not_true,
      Bool.false_eq_true, if_false, h2, h2', hg]
    cases hgr : get_ppn_and_machine (pySplitOnChar ':' n2) with
    | ok pr =>
      obtain ⟨p, mm⟩ := pr
      simp [Except.map]
    | error e => simp [Except.map]
  · have h3' : (pySplitOnChar ':' n2).length = 3 := by omega
    simp only [decode_nodes, set_ppn, hc1, hc2, Bool.not_true,
      Bool.false_eq_true, if_false, h3, h3', hg]
    cases hgr : get_ppn_and_machine (pySplitOnChar ':' n2) with
    | ok pr =>
      obtain ⟨p, mm⟩ := pr
      simp [Except.map]
    | error e => simp [Except.map]

/-- Witness for C7: `ppn=8:haswell` and `haswell:ppn=8` decode
identically. -/
theorem c7_witness :
    decode_nodes "ppn=8:haswell".toList = decode_nodes "haswell:ppn=8".toList :=
  c7_order_independent "ppn=8:haswell".toList "haswell:ppn=8".toList
    (by decide) (by decide) (by decide) (by decide)

/-! ## Claim C8 -/

/-- C8: incrementing a name already known to the module counter adds exactly
1 to that module's count, leaves every other module count, the whole version
counter and the executable map untouched, and does not raise. -/
theorem c8_increment_known (st : StatsState) (name : PyStr) (v : Int)
    (h : dlookup name st.module_counter = some v) :
    increment_module_count st name =
      .ok { st with module_counter := dinsert name (v + 1) st.module_counter } ∧
    dlookup name (dinsert name (v + 1) st.module_counter) = some (v + 1) ∧
    (∀ k, k ≠ name → dlookup k (dinsert name (v + 1) st.module_counter) =
      dlookup k st.module_counter) ∧
    ({ st with module_counter := dinsert name (v + 1) st.module_counter} :
      StatsState).version_counter = st.version_counter ∧
    ({ st with module_counter := dinsert name (v + 1) st.module_counter} :
      StatsState).executables = st.executables := by
  refine ⟨?_, dlookup_dinsert_self _ _ _,
    fun k hk => dlookup_dinsert_ne _ _ _ _ (Ne.symm hk), rfl, rfl⟩
  simp only [increment_module_count, h]

/-- Concrete counter state used by the C8 witness. -/
def sampleStats : StatsState :=
  ⟨[("Python".toList, 3), ("R".toList, 0)], [("2015/R".toList, 0)],
    [("Rscript".toList, "R".toList)]⟩

/-- Witness for C8 at a concrete state in which `Python` has count 3. -/
theorem c8_witness :
    increment_module_count sampleStats "Python".toList =
      .ok { sampleStats with
        module_counter := dinsert "Python".toList 4 sampleStats.module_counter } :=
  (c8_increment_known sampleStats "Python".toList 3 (by decide)).1

/-! ## Claim C10 -/

/-- C10: calling `increment_version_count` with a non-null version always
raises `NameError` — the key is built from the unbound, misspelled name
`verison` — before any counter is read or written, so no
`epoch/module/version` counter can ever be incremented through this
operation when a version is supplied. -/
theorem c10_version_increment_raises (st : StatsState) (toolchain : Int)
    (moduleName version : PyStr) :
    increment_version_count st toolchain moduleName (some version) =
      .error .nameError := rfl

/-! ## Claim C9 -/

theorem pyWsSplitAux_all_notws (l r acc : PyStr)
    (h : ∀ c ∈ l, ¬ c.isWhitespace) :
    pyWsSplitAux (l ++ r) acc = pyWsSplitAux r (l.reverse ++ acc) := by
  induction l generalizing acc with
  | nil => simp
  | cons c t ih =>
    have hc : c.isWhitespace = false := by
      have := h c (List.mem_cons_self c t)
      simpa using this
    simp only [List.cons_append, pyWsSplitAux, hc, Bool.false_eq_true, if_false,
      List.append_eq]
    rw [ih (c :: acc) (fun d hd => h d (List.mem_cons_of_mem c hd))]
    have harr : t.reverse ++ (c :: acc) = (c :: t).reverse ++ acc := by
      simp
    rw [harr]

theorem pyWsSplit_word_space (k v : PyStr) (hk : k ≠ [])
    (hkw : ∀ c ∈ k, ¬ c.isWhitespace) (hv : v ≠ [])
    (hvw : ∀ c ∈ v, ¬ c.isWhitespace) :
    pyWsSplit (k ++ ' ' :: v) = [k, v] := by
  unfold pyWsSplit
  rw [pyWsSplitAux_all_notws k (' ' :: v) [] hkw, List.append_nil]
  have hke : (k.reverse).isEmpty = false := by
    cases k with
    | nil => exact absurd rfl hk
    | cons a t => simp
  have hsp : (' ').isWhitespace = true := by decide
  rw [show pyWsSplitAux (' ' :: v) k.reverse =
      (if (' ').isWhitespace then
        (if (k.reverse).isEmpty then pyWsSplitAux v []
         else (k.reverse).reverse :: pyWsSplitAux v [])
       else pyWsSplitAux v (' ' :: k.reverse)) from rfl]
  rw [if_pos hsp, if_neg (by rw [hke]; exact Bool.false_ne_true),
    List.reverse_reverse]
  have hv2 := pyWsSplitAux_all_notws v [] [] hvw
  rw [List.append_nil] at hv2
  rw [hv2, List.append_nil]
  have hve : (v.reverse).isEmpty = false := by
    cases v with
    | nil => exact absurd rfl hv
    | cons a t => simp
  rw [show pyWsSplitAux [] v.reverse =
      (if (v.reverse).isEmpty then [] else [(v.reverse).reverse]) from rfl]
  rw [if_neg (by rw [hve]; exact Bool.false_ne_true), List.reverse_reverse]

theorem pyRstripCrLf_word (k v : PyStr) (hv : v ≠ [])
    (hvw : ∀ c ∈ v, ¬ c.isWhitespace) :
    pyRstripCrLf ((k ++ ' ' :: v) ++ ['\n']) = k ++ ' ' :: v := by
  obtain ⟨a, t, hat⟩ : ∃ a t, v.reverse = a :: t := by
    cases hr : v.reverse with
    | nil =>
      rw [List.reverse_eq_nil_iff] at hr
      exact absurd hr hv
    | cons a t => exact ⟨a, t, rfl⟩
  have ha : a ∈ v := by
    rw [← List.mem_reverse, hat]
    exact List.mem_cons_self a t
  have haw : ¬ a.isWhitespace := hvw a ha
  have hacond : (a == '\r' || a == '\n') = false := by
    by_cases hr : a = '\r'
    · subst hr
      exact absurd (by decide) haw
    · by_cases hn : a = '\n'
      · subst hn
        exact absurd (by decide) haw
      · simp [hr, hn]
  unfold pyRstripCrLf
  have hrev : ((k ++ ' ' :: v) ++ ['\n']).reverse =
      '\n' :: (v.reverse ++ (' ' :: k.reverse)) := by
    simp
  rw [hrev]
  have hnlcond : (('\n' : Char) == '\r' || ('\n' : Char) == '\n') = true := by
    decide
  rw [List.dropWhile_cons, if_pos hnlcond, hat, List.cons_append,
    List.dropWhile_cons, if_neg (by simp [hacond])]
  rw [← List.cons_append, ← hat]
  simp

theorem read_write_loop (m : Dict PyStr) :
    (∀ kv ∈ m, kv.1 ≠ [] ∧ kv.2 ≠ [] ∧ (∀ c ∈ kv.1, ¬ c.isWhitespace) ∧
      (∀ c ∈ kv.2, ¬ c.isWhitespace)) →
    ∀ d, read_lines_loop (write_dic_executables m) d = .ok (dmerge d m) := by
  induction m with
  | nil => intro _ d; rfl
  | cons kv rest ih =>
    intro hkv d
    obtain ⟨k, v⟩ := kv
    obtain ⟨hk, hv, hkw, hvw⟩ := hkv (k, v) (List.mem_cons_self _ _)
    simp only [write_dic_executables, List.map_cons, read_lines_loop]
    have hline : (k ++ ' ' :: v ++ ['\n']) = ((k ++ ' ' :: v) ++ ['\n']) := by
      simp
    rw [hline, pyRstripCrLf_word k v hv hvw, pyWsSplit_word_space k v hk hkw hv hvw]
    exact ih (fun kv hm => hkv kv (List.mem_cons_of_mem _ hm)) (dinsert k v d)

/-- C9 counterexample.  A one-entry executable map whose key contains a
space does not survive the write/read round trip: the written line
`a b m` splits back into three tokens and the read raises `ValueError`
instead of reproducing the mapping. -/
theorem c9_counterexample :
    read_dic_executables (write_dic_executables [("a b".toList, "m".toList)]) =
      .error .valueError := by decide

/-- C9 (amended): for every executable map whose keys and values are
nonempty and contain no whitespace characters (which every name harvested
from a directory listing line satisfies), writing the map to the persisted
whitespace-delimited text format and reading it back succeeds and yields the
same module value for every executable key present before the write; a key
or value containing whitespace breaks the round trip, as the counterexample
shows. -/
theorem c9_roundtrip (m : Dict PyStr)
    (hnodup : (dkeys m).Nodup)
    (hkv : ∀ kv ∈ m, kv.1 ≠ [] ∧ kv.2 ≠ [] ∧ (∀ c ∈ kv.1, ¬ c.isWhitespace) ∧
      (∀ c ∈ kv.2, ¬ c.isWhitespace)) :
    read_dic_executables (write_dic_executables m) = .ok (dmerge [] m) ∧
    ∀ k, dlookup k (dmerge [] m) = dlookup k m := by
  refine ⟨read_write_loop m hkv [], fun k => ?_⟩
  rw [dlookup_dmerge [] m k hnodup]
  cases dlookup k m <;> simp [dlookup]

/-- Witness for C9 on a concrete two-entry executable map. -/
theorem c9_witness :
    read_dic_executables (write_dic_executables
        [("R".toList, "R".toList), ("Rscript".toList, "R".toList)]) =
      .ok (dmerge [] [("R".toList, "R".toList), ("Rscript".toList, "R".toList)]) ∧
    ∀ k, dlookup k
        (dmerge [] [("R".toList, "R".toList), ("Rscript".toList, "R".toList)]) =
      dlookup k [("R".toList, "R".toList), ("Rscript".toList, "R".toList)] :=
  c9_roundtrip [("R".toList, "R".toList), ("Rscript".toList, "R".toList)]
    (by decide) (by decide)

end ModuleStat
